import Mathlib

/-!
Verification of the vinted_autolister repository.

The repository ships a frontend (form validation, upload handling, mock AI
generators in JavaScript) and a specification of a price-recommendation core
(`normalize` / `estimate`).  The pricing core itself is not present in the
source tree — the spec describes it as the design target that the mock
`generateAIPrice` placeholder should be replaced by — so the pricing-core
definitions below are modelled from the spec.  The frontend functions
(`generateAIPrice`, `validateField`, `validateForm`) are embedded directly
from the JavaScript source.

All currency amounts are modelled as rationals.  String-level operations of
the pricing core (price parsing, token matching, trimming) are implemented
charwise over `List Char` so that every definition evaluates by kernel
reduction on concrete inputs.
-/

namespace VintedAutolister

/-! ## Character-level utilities (price parsing, token matching) -/

/-- Whitespace test used by the charwise trim. -/
def isSpaceCh (c : Char) : Bool := c = ' ' || c = '\t' || c = '\n' || c = '\r'

/-- Trim leading and trailing whitespace from a character list. -/
def trimChars (cs : List Char) : List Char :=
  ((cs.dropWhile isSpaceCh).reverse.dropWhile isSpaceCh).reverse

/-- ASCII-insensitive character code: upper-case letters are mapped to the
code of their lower-case form, every other character to its own code. -/
def lowerCode (c : Char) : ℕ :=
  if 65 ≤ c.toNat ∧ c.toNat ≤ 90 then c.toNat + 32 else c.toNat

/-- Case-insensitive view of a character list as a list of codes. -/
def lowerCodes (cs : List Char) : List ℕ := cs.map lowerCode

/-- Canonical token of a free-text field: trimmed, case-folded. -/
def normTok (s : String) : List ℕ := lowerCodes (trimChars s.toList)

/-- Bool test: `needle` occurs as a contiguous subsequence of `hay`. -/
def containsSeq (hay needle : List ℕ) : Bool :=
  hay.tails.any fun t => needle.isPrefixOf t

/-- Case-insensitive substring test between a title and a query keyword. -/
def containsTok (title tok : String) : Bool :=
  containsSeq (lowerCodes title.toList) (lowerCodes tok.toList)

/-- ASCII digit test. -/
def isDigitCh (c : Char) : Bool := 48 ≤ c.toNat && c.toNat ≤ 57

/-- Numeric value of a list of ASCII digits. -/
def digitsVal (cs : List Char) : ℕ :=
  cs.foldl (fun n c => n * 10 + (c.toNat - 48)) 0

/-- JavaScript `String.prototype.trim`: strip leading and trailing
whitespace. -/
def jsTrim (s : String) : String := String.mk (trimChars s.toList)

/-- Split a character list at every `,` or `.` separator. -/
def splitSepsAux : List Char → List Char → List (List Char)
  | cur, [] => [cur.reverse]
  | cur, c :: cs =>
    if c = ',' || c = '.' then cur.reverse :: splitSepsAux [] cs
    else splitSepsAux (c :: cur) cs

/-- Modelled from the spec: price parsing (§4.1 step 1) of the Comparable
Normalizer, which is absent from the source tree.  Strips currency symbols
and spaces, accepts thousands separators and a decimal separator (`,` or
`.`); a final separator group of at most two digits is read as the decimal
part, otherwise all separators are read as thousands separators.  Returns
`none` for anything that does not resolve to a number. -/
def parsePrice (s : String) : Option ℚ :=
  let cs := s.toList.filter fun c => !(c = '€' || c = '$' || c = '£' || c = ' ')
  if cs.isEmpty then none
  else if cs.all isDigitCh then some ((digitsVal cs : ℕ) : ℚ)
  else
    let parts := splitSepsAux [] cs
    if parts.any (fun p => p.isEmpty || !p.all isDigitCh) then none
    else
      match parts.getLast? with
      | none => none
      | some last =>
        if last.length ≤ 2 then
          some (((digitsVal (List.flatten parts.dropLast) : ℕ) : ℚ)
            + ((digitsVal last : ℕ) : ℚ) / ((10 : ℚ) ^ last.length))
        else some ((digitsVal (List.flatten parts) : ℕ) : ℚ)

/-! ## Data model of the pricing core (modelled from the spec, §3) -/

/-- Modelled from the spec: the ordered condition enumeration
new, like-new, good, fair, poor with an unknown fallback. -/
inductive Condition where
  | new
  | likeNew
  | good
  | fair
  | poor
  | unknown
deriving DecidableEq

/-- Modelled from the spec: the confidence enumeration of an estimate. -/
inductive Confidence where
  | high
  | medium
  | low
deriving DecidableEq

/-- Modelled from the spec: one element of a ComparableSample. -/
structure SampleEntry where
  price : ℚ
  condition_rank : ℕ
  size_match : Bool
deriving DecidableEq

/-- Modelled from the spec: the final PriceEstimate record. -/
structure PriceEstimate where
  recommended_price : ℚ
  price_range : ℚ × ℚ
  confidence : Confidence
  sample_size : ℕ
deriving DecidableEq

/-- Modelled from the spec: a raw scraped listing record (untrusted). -/
structure ScrapedListing where
  price : String
  title : String
  condition : String
  size : String

/-- Modelled from the spec: the query attributes a comparable search was
built from.  A missing attribute is `none`. -/
structure QueryAttributes where
  brand : Option String
  itemType : Option String
  size : Option String

/-- Modelled from the spec: the error raised for a query lacking both brand
and type. -/
inductive NormError where
  | invalidQuery
deriving DecidableEq

/-! ## Comparable Normalizer (modelled from the spec, §4.1) -/

/-- Modelled from the spec: free-text condition mapping (§4.1 step 3);
unmapped text falls back to unknown. -/
def mapCondition (s : String) : Condition :=
  let t := normTok s
  if t = normTok "new" then .new
  else if t = normTok "like new" || t = normTok "like-new" then .likeNew
  else if t = normTok "good" then .good
  else if t = normTok "fair" then .fair
  else if t = normTok "poor" then .poor
  else .unknown

/-- Modelled from the spec: integer position in the ordered enumeration,
higher is better; unknown is placed at the good baseline. -/
def condRank : Condition → ℕ
  | .new => 4
  | .likeNew => 3
  | .good => 2
  | .fair => 1
  | .poor => 0
  | .unknown => 2

/-- Modelled from the spec: size match flag (§4.1 step 4) — true only when
both sides normalize to the same non-empty token. -/
def sizeMatch (q : QueryAttributes) (s : String) : Bool :=
  match q.size with
  | none => false
  | some qs => !(normTok s).isEmpty && !(normTok qs).isEmpty && normTok s = normTok qs

/-- Modelled from the spec: keywords for the relevance filter — the brand
and type attributes that are present. -/
def queryKeywords (q : QueryAttributes) : List String :=
  [q.brand, q.itemType].filterMap id

/-- Modelled from the spec: relevance filter (§4.1 step 2) — the title must
contain at least one of the brand/type keywords, case-insensitively. -/
def relevantTitle (q : QueryAttributes) (title : String) : Bool :=
  (queryKeywords q).any fun k => containsTok title k

/-- Modelled from the spec: processing of a single raw listing — parse the
price (drop if unparseable or non-positive), apply the relevance filter,
map condition and size. -/
def normalizeListing (q : QueryAttributes) (r : ScrapedListing) : Option SampleEntry :=
  match parsePrice r.price with
  | none => none
  | some p =>
    if p ≤ 0 then none
    else if relevantTitle q r.title then
      some ⟨p, condRank (mapCondition r.condition), sizeMatch q r.size⟩
    else none

/-- Modelled from the spec: the sample after price parsing, relevance
filtering and condition mapping (§4.1 steps 1–4), before outlier
rejection. -/
def preNormalize (l : List ScrapedListing) (q : QueryAttributes) : List SampleEntry :=
  l.filterMap (normalizeListing q)

/-! ## Order statistics -/

/-- Median of a sorted list: middle element for odd length, mean of the two
middle elements for even length.  Returns 0 on the empty list; every use
site guards against emptiness. -/
def median (l : List ℚ) : ℚ :=
  if l.length % 2 = 1 then l.getD (l.length / 2) 0
  else (l.getD (l.length / 2 - 1) 0 + l.getD (l.length / 2) 0) / 2

/-- Lower half of a sorted list (median excluded for odd length); a list of
length at most one is its own lower half. -/
def lowerHalf (l : List ℚ) : List ℚ :=
  if l.length ≤ 1 then l else l.take (l.length / 2)

/-- Upper half of a sorted list (median excluded for odd length); a list of
length at most one is its own upper half. -/
def upperHalf (l : List ℚ) : List ℚ :=
  if l.length ≤ 1 then l else l.drop ((l.length + 1) / 2)

/-- First quartile of a sorted list: median of its lower half. -/
def quartile1 (l : List ℚ) : ℚ := median (lowerHalf l)

/-- Third quartile of a sorted list: median of its upper half. -/
def quartile3 (l : List ℚ) : ℚ := median (upperHalf l)

/-- Lower Tukey fence Q1 − 1.5·IQR of a sorted list. -/
def iqrLow (l : List ℚ) : ℚ := quartile1 l - 3/2 * (quartile3 l - quartile1 l)

/-- Upper Tukey fence Q3 + 1.5·IQR of a sorted list. -/
def iqrHigh (l : List ℚ) : ℚ := quartile3 l + 3/2 * (quartile3 l - quartile1 l)

/-- Prices of a sample, sorted ascending. -/
def sortedPrices (sample : List SampleEntry) : List ℚ :=
  List.insertionSort (· ≤ ·) (sample.map SampleEntry.price)

/-- Modelled from the spec: the Comparable Normalizer contract (§4.1, §6).
Fails with `invalidQuery` exactly when the query lacks both brand and type;
otherwise drops malformed listings, then applies IQR outlier rejection
unless fewer than 4 prices survived the earlier steps. -/
def normalize (l : List ScrapedListing) (q : QueryAttributes) :
    Except NormError (List SampleEntry) :=
  if q.brand = none ∧ q.itemType = none then .error .invalidQuery
  else
    let pre := preNormalize l q
    if pre.length < 4 then .ok pre
    else
      let sorted := sortedPrices pre
      .ok (pre.filter fun e =>
        decide (iqrLow sorted ≤ e.price) && decide (e.price ≤ iqrHigh sorted))

/-! ## Price Estimator (modelled from the spec, §4.2) -/

/-- Modelled from the spec: the explicit, documented condition-factor table
relative to the good baseline — new +15 %, like-new +5 %, good 0 %,
fair −10 %, poor −20 %; unknown is kept at the baseline. -/
def condFactor : Condition → ℚ
  | .new => 23/20
  | .likeNew => 21/20
  | .good => 1
  | .fair => 9/10
  | .poor => 4/5
  | .unknown => 1

/-- Mean of a list of prices (0 for the empty list; guarded at use sites). -/
def meanQ (ps : List ℚ) : ℚ := ps.sum / ps.length

/-- Population variance of a list of prices. -/
def varQ (ps : List ℚ) : ℚ := (ps.map fun p => (p - meanQ ps) ^ 2).sum / ps.length

/-- Modelled from the spec: confidence rule (§4.2 step 6).  The coefficient
of variation stdev/mean < 0.3 is expressed in squared form
variance < 0.09·mean², which is equivalent for the positive prices of a
valid sample. -/
def confidenceOf (ps : List ℚ) : Confidence :=
  if 8 ≤ ps.length ∧ varQ ps < 9/100 * (meanQ ps) ^ 2 then .high
  else if 3 ≤ ps.length then .medium
  else .low

/-- Modelled from the spec: rounding granularity (§4.2 step 4) — whole
currency units when every observed price is an integer, otherwise one
decimal. -/
def granularity (ps : List ℚ) : ℚ :=
  if ps.all (fun p => decide (p.den = 1)) then 1 else 1/10

/-- Round to the nearest multiple of a positive granularity, halves up. -/
def roundTo (g x : ℚ) : ℚ := ((⌊x / g + 1/2⌋ : ℤ) : ℚ) * g

/-- Clamp a value into a closed interval. -/
def clampQ (x lo hi : ℚ) : ℚ := max lo (min x hi)

/-- Modelled from the spec: lower end of the price range (§4.2 step 5) —
the condition-adjusted first quartile, widened to −15 % of the adjusted
base for a single-element sample. -/
def estLow (f : ℚ) (sorted : List ℚ) : ℚ :=
  if sorted.length = 1 then 17/20 * (f * median sorted) else f * quartile1 sorted

/-- Modelled from the spec: upper end of the price range (§4.2 step 5) —
the condition-adjusted third quartile, widened to +15 % of the adjusted
base for a single-element sample. -/
def estHigh (f : ℚ) (sorted : List ℚ) : ℚ :=
  if sorted.length = 1 then 23/20 * (f * median sorted) else f * quartile3 sorted

/-- Modelled from the spec: the fallback estimate for an empty sample
(§4.2 step 1) around a caller-supplied category default. -/
def fallbackEstimate (defaultPrice : ℚ) : PriceEstimate :=
  { recommended_price := defaultPrice
    price_range := (4/5 * defaultPrice, 6/5 * defaultPrice)
    confidence := .low
    sample_size := 0 }

/-- Modelled from the spec: the non-empty branch of the Price Estimator —
median base, condition factor, granularity rounding, percentile band with
clamping of the point estimate into the band. -/
def estimateCore (sample : List SampleEntry) (c : Condition) : PriceEstimate :=
  { recommended_price :=
      clampQ
        (roundTo (granularity (sample.map SampleEntry.price))
          (condFactor c * median (sortedPrices sample)))
        (estLow (condFactor c) (sortedPrices sample))
        (estHigh (condFactor c) (sortedPrices sample))
    price_range :=
      (estLow (condFactor c) (sortedPrices sample),
       estHigh (condFactor c) (sortedPrices sample))
    confidence := confidenceOf (sample.map SampleEntry.price)
    sample_size := sample.length }

/-- Modelled from the spec: the Price Estimator contract (§4.2) — the
fallback for an empty sample, the core algorithm otherwise. -/
def estimate (sample : List SampleEntry) (c : Condition) (defaultPrice : ℚ) :
    PriceEstimate :=
  if sample.isEmpty then fallbackEstimate defaultPrice else estimateCore sample c

/-- Modelled from the spec: one run of the whole pricing pipeline
`estimate(normalize(listings, q), c)`.  The `oracle` argument models the
randomness source available to the runtime (as consumed by the repository's
placeholder `generateAIPrice`); the spec's pipeline never consults it. -/
def runPricing (oracle : ℕ → ℚ) (l : List ScrapedListing) (q : QueryAttributes)
    (c : Condition) (defaultPrice : ℚ) : Except NormError PriceEstimate :=
  (normalize l q).map fun s => estimate s c defaultPrice

/-! ## Frontend code embedded from the JavaScript source -/

/-- JavaScript `Math.round` on a (non-negative) value: nearest integer,
halves rounded up. -/
def jsRound (x : ℚ) : ℤ := ⌊x + 1/2⌋

/-- Embedded from aiGenerator.js: `generateAIPrice({category, condition})`
computes `Math.round(20 + Math.random() * 30)`.  `Math.random` is modelled
as an oracle value `rand` in `[0, 1)` supplied by the environment. -/
def generateAIPrice (category condition : String) (rand : ℚ) : ℤ :=
  jsRound (20 + rand * 30)

/-- A DOM form field as seen by formValidator.js: its value, its `type`
attribute and its element id. -/
structure FormField where
  value : String
  ftype : String
  fid : String

/-- JavaScript `parseFloat(v) <= 0`: false when the value does not parse
(NaN compares false), otherwise the comparison on the parsed number.  The
parse function itself is passed in abstractly. -/
def parsedNonpos (pf : String → Option ℚ) (v : String) : Bool :=
  match pf v with
  | some x => decide (x ≤ 0)
  | none => false

/-- Embedded from formValidator.js: `validateField(field, onError)`.  The
first component is the boolean return value; the second is the message
passed to `onError`, with `""` meaning the callback was not invoked. -/
def validateField (pf : String → Option ℚ) (f : FormField) : Bool × String :=
  let v := jsTrim f.value
  let error :=
    if v = "" then "This field is required"
    else if f.ftype = "number" ∧ parsedNonpos pf v = true then
      "Please enter a valid number"
    else if f.fid = "title-input" ∧ v.length < 10 then
      "Title must be at least 10 characters"
    else if f.fid = "description-input" ∧ v.length < 20 then
      "Description must be at least 20 characters"
    else ""
  if error = "" then (true, "") else (false, error)

/-- One step of the `requiredFieldIds.forEach` loop of `validateForm`: look
the field up in the document, skip missing fields, validate present ones,
recording the validity flag and appending any error message. -/
def formStep (pf : String → Option ℚ) (env : String → Option FormField)
    (acc : Bool × List String) (id : String) : Bool × List String :=
  match env id with
  | none => acc
  | some f =>
    if (validateField pf f).1 then acc
    else (false, acc.2 ++ [(validateField pf f).2])

/-- Embedded from formValidator.js: `validateForm({requiredFieldIds,
uploadedImages, onError})`.  `env` models `document.getElementById`.  The
first component is the returned validity flag; the second collects the
messages passed to `onError` in order. -/
def validateForm (pf : String → Option ℚ) (env : String → Option FormField)
    (ids : List String) (uploadedImages : List String) : Bool × List String :=
  let init : Bool × List String :=
    if uploadedImages.length = 0 then (false, ["Please upload at least one image"])
    else (true, [])
  ids.foldl (formStep pf env) init

/-! ## Order-statistics lemmas -/

lemma getD_mem_of_lt {l : List ℚ} {i : ℕ} (h : i < l.length) : l.getD i 0 ∈ l := by
  rw [List.getD_eq_getElem l 0 h]
  exact List.getElem_mem h

lemma median_eq_avg {l : List ℚ} (h : l ≠ []) :
    ∃ a, a ∈ l ∧ ∃ b, b ∈ l ∧ median l = (a + b) / 2 := by
  have hn : 0 < l.length := List.length_pos.mpr h
  unfold median
  by_cases hodd : l.length % 2 = 1
  · refine ⟨l.getD (l.length / 2) 0, getD_mem_of_lt (Nat.div_lt_self hn one_lt_two),
      l.getD (l.length / 2) 0, getD_mem_of_lt (Nat.div_lt_self hn one_lt_two), ?_⟩
    rw [if_pos hodd]
    ring
  · have h1 : l.length / 2 - 1 < l.length := by omega
    have h2 : l.length / 2 < l.length := Nat.div_lt_self hn one_lt_two
    exact ⟨_, getD_mem_of_lt h1, _, getD_mem_of_lt h2, by rw [if_neg hodd]⟩

lemma median_le_median {l₁ l₂ : List ℚ} (h₁ : l₁ ≠ []) (h₂ : l₂ ≠ [])
    (hc : ∀ x ∈ l₁, ∀ y ∈ l₂, x ≤ y) : median l₁ ≤ median l₂ := by
  obtain ⟨a, ha, b, hb, hab⟩ := median_eq_avg h₁
  obtain ⟨u, hu, v, hv, huv⟩ := median_eq_avg h₂
  have h1 := hc a ha u hu
  have h2 := hc b hb v hv
  rw [hab, huv]
  linarith

lemma median_pos {l : List ℚ} (h : l ≠ []) (hp : ∀ x ∈ l, 0 < x) : 0 < median l := by
  obtain ⟨a, ha, b, hb, hab⟩ := median_eq_avg h
  have h1 := hp a ha
  have h2 := hp b hb
  rw [hab]
  linarith

lemma lowerHalf_subset (l : List ℚ) : lowerHalf l ⊆ l := by
  unfold lowerHalf
  split
  · exact fun x hx => hx
  · exact List.take_subset _ _

lemma upperHalf_subset (l : List ℚ) : upperHalf l ⊆ l := by
  unfold upperHalf
  split
  · exact fun x hx => hx
  · exact List.drop_subset _ _

lemma lowerHalf_ne_nil {l : List ℚ} (h : l ≠ []) : lowerHalf l ≠ [] := by
  have hn : 0 < l.length := List.length_pos.mpr h
  unfold lowerHalf
  split
  · exact h
  · next hlen =>
    intro hnil
    have := congrArg List.length hnil
    simp only [List.length_take, List.length_nil] at this
    omega

lemma upperHalf_ne_nil {l : List ℚ} (h : l ≠ []) : upperHalf l ≠ [] := by
  have hn : 0 < l.length := List.length_pos.mpr h
  unfold upperHalf
  split
  · exact h
  · next hlen =>
    intro hnil
    have := congrArg List.length hnil
    simp only [List.length_drop, List.length_nil] at this
    omega

lemma lowerHalf_le_upperHalf {l : List ℚ} (hs : List.Sorted (· ≤ ·) l) :
    ∀ x ∈ lowerHalf l, ∀ y ∈ upperHalf l, x ≤ y := by
  unfold lowerHalf upperHalf
  split
  · next hlen =>
    intro x hx y hy
    match l, hlen with
    | [], _ => simp at hx
    | [a], _ =>
      rw [List.mem_singleton] at hx hy
      rw [hx, hy]
  · next hlen =>
    intro x hx y hy
    have hdecomp : l.take ((l.length + 1) / 2) ++ l.drop ((l.length + 1) / 2) = l :=
      List.take_append_drop _ l
    have hpw : (l.take ((l.length + 1) / 2) ++ l.drop ((l.length + 1) / 2)).Pairwise (· ≤ ·) := by
      rw [hdecomp]
      exact hs
    have hcross := (List.pairwise_append.mp hpw).2.2
    have hxm : x ∈ l.take ((l.length + 1) / 2) := by
      have heq : l.take (l.length / 2) = (l.take ((l.length + 1) / 2)).take (l.length / 2) := by
        rw [List.take_take]
        congr 1
        omega
      rw [heq] at hx
      exact List.take_subset _ _ hx
    exact hcross x hxm y hy

lemma quartile1_le_quartile3 {l : List ℚ} (h : l ≠ []) (hs : List.Sorted (· ≤ ·) l) :
    quartile1 l ≤ quartile3 l :=
  median_le_median (lowerHalf_ne_nil h) (upperHalf_ne_nil h) (lowerHalf_le_upperHalf hs)

lemma quartile1_pos {l : List ℚ} (h : l ≠ []) (hp : ∀ x ∈ l, 0 < x) : 0 < quartile1 l :=
  median_pos (lowerHalf_ne_nil h) fun x hx => hp x (lowerHalf_subset l hx)

lemma quartile3_pos {l : List ℚ} (h : l ≠ []) (hp : ∀ x ∈ l, 0 < x) : 0 < quartile3 l :=
  median_pos (upperHalf_ne_nil h) fun x hx => hp x (upperHalf_subset l hx)

/-! ## Sorted-prices lemmas -/

lemma sortedPrices_perm (sample : List SampleEntry) :
    List.Perm (sortedPrices sample) (sample.map SampleEntry.price) :=
  List.perm_insertionSort _ _

lemma sortedPrices_length (sample : List SampleEntry) :
    (sortedPrices sample).length = sample.length := by
  rw [(sortedPrices_perm sample).length_eq, List.length_map]

lemma sortedPrices_sorted (sample : List SampleEntry) :
    List.Sorted (· ≤ ·) (sortedPrices sample) :=
  List.sorted_insertionSort _ _

lemma sortedPrices_ne_nil {sample : List SampleEntry} (h : sample ≠ []) :
    sortedPrices sample ≠ [] := by
  intro hnil
  have hlen := sortedPrices_length sample
  rw [hnil, List.length_nil] at hlen
  exact h (List.length_eq_zero.mp hlen.symm)

lemma sortedPrices_pos {sample : List SampleEntry} (hp : ∀ e ∈ sample, 0 < e.price) :
    ∀ x ∈ sortedPrices sample, 0 < x := by
  intro x hx
  have hmap : x ∈ sample.map SampleEntry.price := (sortedPrices_perm sample).mem_iff.mp hx
  obtain ⟨e, he, rfl⟩ := List.mem_map.mp hmap
  exact hp e he

/-! ## Rounding, clamping and factor lemmas -/

lemma condFactor_pos (c : Condition) : 0 < condFactor c := by
  cases c <;> norm_num [condFactor]

lemma granularity_pos (ps : List ℚ) : 0 < granularity ps := by
  unfold granularity
  split <;> norm_num

lemma roundTo_mono {g x y : ℚ} (hg : 0 < g) (hxy : x ≤ y) : roundTo g x ≤ roundTo g y := by
  unfold roundTo
  have h1 : x / g ≤ y / g := by gcongr
  have h2 : (⌊x / g + 1/2⌋ : ℤ) ≤ ⌊y / g + 1/2⌋ := Int.floor_le_floor (by linarith)
  have h3 : ((⌊x / g + 1/2⌋ : ℤ) : ℚ) ≤ ((⌊y / g + 1/2⌋ : ℤ) : ℚ) := by exact_mod_cast h2
  exact mul_le_mul_of_nonneg_right h3 hg.le

lemma le_clampQ (x lo hi : ℚ) : lo ≤ clampQ x lo hi := le_max_left _ _

lemma clampQ_le {x lo hi : ℚ} (h : lo ≤ hi) : clampQ x lo hi ≤ hi :=
  max_le h (min_le_right _ _)

lemma clampQ_mono {x₁ x₂ lo₁ lo₂ hi₁ hi₂ : ℚ} (hx : x₁ ≤ x₂) (hlo : lo₁ ≤ lo₂)
    (hhi : hi₁ ≤ hi₂) : clampQ x₁ lo₁ hi₁ ≤ clampQ x₂ lo₂ hi₂ :=
  max_le_max hlo (min_le_min hx hhi)

/-! ## Estimator-band lemmas -/

lemma estLow_pos {f : ℚ} {sorted : List ℚ} (hf : 0 < f) (h : sorted ≠ [])
    (hp : ∀ x ∈ sorted, 0 < x) : 0 < estLow f sorted := by
  unfold estLow
  split
  · have hm := median_pos h hp
    positivity
  · exact mul_pos hf (quartile1_pos h hp)

lemma estLow_le_estHigh {f : ℚ} {sorted : List ℚ} (hf : 0 < f) (h : sorted ≠ [])
    (hs : List.Sorted (· ≤ ·) sorted) (hp : ∀ x ∈ sorted, 0 < x) :
    estLow f sorted ≤ estHigh f sorted := by
  unfold estLow estHigh
  split
  · have hm := median_pos h hp
    nlinarith
  · exact mul_le_mul_of_nonneg_left (quartile1_le_quartile3 h hs) hf.le

lemma estLow_mono {f₁ f₂ : ℚ} {sorted : List ℚ} (hff : f₁ ≤ f₂) (h : sorted ≠ [])
    (hp : ∀ x ∈ sorted, 0 < x) : estLow f₁ sorted ≤ estLow f₂ sorted := by
  unfold estLow
  split
  · have hm := (median_pos h hp).le
    have := mul_le_mul_of_nonneg_right hff hm
    linarith
  · exact mul_le_mul_of_nonneg_right hff (quartile1_pos h hp).le

lemma estHigh_mono {f₁ f₂ : ℚ} {sorted : List ℚ} (hff : f₁ ≤ f₂) (h : sorted ≠ [])
    (hp : ∀ x ∈ sorted, 0 < x) : estHigh f₁ sorted ≤ estHigh f₂ sorted := by
  unfold estHigh
  split
  · have hm := (median_pos h hp).le
    have := mul_le_mul_of_nonneg_right hff hm
    linarith
  · exact mul_le_mul_of_nonneg_right hff (quartile3_pos h hp).le

/-! ## Estimate-unfolding lemmas -/

lemma estimate_nil (c : Condition) (d : ℚ) : estimate [] c d = fallbackEstimate d := rfl

lemma estimate_of_ne_nil {sample : List SampleEntry} (c : Condition) (d : ℚ)
    (h : sample ≠ []) : estimate sample c d = estimateCore sample c := by
  unfold estimate
  rw [if_neg]
  simp [List.isEmpty_iff, h]

lemma estimateCore_spec {sample : List SampleEntry} (c : Condition)
    (h : sample ≠ []) (hp : ∀ e ∈ sample, 0 < e.price) :
    0 < (estimateCore sample c).recommended_price ∧
      (estimateCore sample c).price_range.1 ≤ (estimateCore sample c).recommended_price ∧
      (estimateCore sample c).recommended_price ≤ (estimateCore sample c).price_range.2 := by
  have hsne := sortedPrices_ne_nil h
  have hssorted := sortedPrices_sorted sample
  have hspos := sortedPrices_pos hp
  have hf := condFactor_pos c
  have hlo : 0 < estLow (condFactor c) (sortedPrices sample) := estLow_pos hf hsne hspos
  have hlohi : estLow (condFactor c) (sortedPrices sample)
      ≤ estHigh (condFactor c) (sortedPrices sample) :=
    estLow_le_estHigh hf hsne hssorted hspos
  exact ⟨lt_of_lt_of_le hlo (le_clampQ _ _ _), le_clampQ _ _ _, clampQ_le hlohi⟩

/-! ## Confidence-characterization lemmas -/

lemma confidenceOf_high_iff (ps : List ℚ) :
    confidenceOf ps = .high ↔ 8 ≤ ps.length ∧ varQ ps < 9/100 * meanQ ps ^ 2 := by
  unfold confidenceOf
  split
  · next h => simp [h]
  · next h =>
    split <;> simp [h]

lemma confidenceOf_medium_iff (ps : List ℚ) :
    confidenceOf ps = .medium ↔
      3 ≤ ps.length ∧ ¬(8 ≤ ps.length ∧ varQ ps < 9/100 * meanQ ps ^ 2) := by
  unfold confidenceOf
  split
  · next h => simp [h]
  · next h =>
    split
    · next h3 => simp [h3, h]
    · next h3 => simp [h3]

lemma confidenceOf_low_iff (ps : List ℚ) :
    confidenceOf ps = .low ↔ ps.length < 3 := by
  unfold confidenceOf
  split
  · next h =>
    simp only [reduceCtorEq, false_iff, not_lt]
    omega
  · next h =>
    split
    · next h3 =>
      simp only [reduceCtorEq, false_iff, not_lt]
      omega
    · next h3 =>
      simp only [true_iff]
      omega

/-! ## Normalizer lemmas -/

lemma mem_preNormalize {l : List ScrapedListing} {q : QueryAttributes} {e : SampleEntry}
    (he : e ∈ preNormalize l q) :
    0 < e.price ∧ ∃ r, r ∈ l ∧ parsePrice r.price = some e.price := by
  obtain ⟨r, hr, hnr⟩ := List.mem_filterMap.mp he
  unfold normalizeListing at hnr
  cases hp : parsePrice r.price with
  | none =>
    rw [hp] at hnr
    simp at hnr
  | some p =>
    rw [hp] at hnr
    dsimp only at hnr
    by_cases hple : p ≤ 0
    · rw [if_pos hple] at hnr
      simp at hnr
    · rw [if_neg hple] at hnr
      by_cases hrel : relevantTitle q r.title = true
      · rw [if_pos hrel] at hnr
        injection hnr with hent
        refine ⟨?_, r, hr, ?_⟩
        · rw [← hent]
          exact not_le.mp hple
        · rw [← hent]
          exact hp
      · rw [if_neg hrel] at hnr
        simp at hnr

/-! ## Form-validation fold lemmas -/

lemma foldl_formStep_invalid (pf : String → Option ℚ) (env : String → Option FormField)
    (ids : List String) :
    ∀ acc : Bool × List String, acc.1 = false →
      (ids.foldl (formStep pf env) acc).1 = false := by
  induction ids with
  | nil =>
    intro acc h
    simpa using h
  | cons id rest ih =>
    intro acc h
    rw [List.foldl_cons]
    apply ih
    unfold formStep
    cases henv : env id with
    | none => simpa using h
    | some f =>
      dsimp only
      by_cases hv : (validateField pf f).1 = true
      · rw [if_pos hv]
        exact h
      · rw [if_neg hv]

lemma foldl_formStep_mem (pf : String → Option ℚ) (env : String → Option FormField)
    (ids : List String) (msg : String) :
    ∀ acc : Bool × List String, msg ∈ acc.2 →
      msg ∈ (ids.foldl (formStep pf env) acc).2 := by
  induction ids with
  | nil =>
    intro acc h
    simpa using h
  | cons id rest ih =>
    intro acc h
    rw [List.foldl_cons]
    apply ih
    unfold formStep
    cases henv : env id with
    | none => simpa using h
    | some f =>
      dsimp only
      by_cases hv : (validateField pf f).1 = true
      · rw [if_pos hv]
        exact h
      · rw [if_neg hv]
        exact List.mem_append_left _ h

lemma parsedNonpos_iff (pf : String → Option ℚ) (v : String) :
    parsedNonpos pf v = true ↔ ∃ x, pf v = some x ∧ x ≤ 0 := by
  unfold parsedNonpos
  cases h : pf v with
  | none => simp
  | some x => simp

/-! ## Claim theorems -/

/-- C1: For every fixed input (listings, query, condition, default price),
two runs of the pricing pipeline `estimate(normalize(listings, q), c)`
produce identical outputs even when the runtime offers them different
randomness oracles: the pipeline is deterministic, with no dependence on
any source of randomness. -/
theorem pipeline_deterministic (o₁ o₂ : ℕ → ℚ) (l : List ScrapedListing)
    (q : QueryAttributes) (c : Condition) (d : ℚ) :
    runPricing o₁ l q c d = runPricing o₂ l q c d := rfl

/-- C2: For every valid sample (all prices strictly positive), every
condition and every strictly positive caller-supplied default, the
estimate's recommended price is strictly positive (and, as a rational,
finite) and the price range satisfies low ≤ recommended ≤ high. -/
theorem estimate_positive_and_range (sample : List SampleEntry) (c : Condition)
    (d : ℚ) (hp : ∀ e ∈ sample, 0 < e.price) (hd : 0 < d) :
    0 < (estimate sample c d).recommended_price ∧
      (estimate sample c d).price_range.1 ≤ (estimate sample c d).recommended_price ∧
      (estimate sample c d).recommended_price ≤ (estimate sample c d).price_range.2 := by
  by_cases h : sample = []
  · subst h
    rw [estimate_nil]
    refine ⟨hd, ?_, ?_⟩
    · show 4/5 * d ≤ d
      linarith
    · show d ≤ 6/5 * d
      linarith
  · rw [estimate_of_ne_nil c d h]
    exact estimateCore_spec c h hp

/-- Witness for C2 at the singleton sample with price 3 and default 5. -/
theorem estimate_positive_and_range_witness :
    0 < (estimate [⟨3, 2, true⟩] Condition.good 5).recommended_price ∧
      (estimate [⟨3, 2, true⟩] Condition.good 5).price_range.1
        ≤ (estimate [⟨3, 2, true⟩] Condition.good 5).recommended_price ∧
      (estimate [⟨3, 2, true⟩] Condition.good 5).recommended_price
        ≤ (estimate [⟨3, 2, true⟩] Condition.good 5).price_range.2 :=
  estimate_positive_and_range [⟨3, 2, true⟩] Condition.good 5
    (by
      intro e he
      rw [List.mem_singleton] at he
      rw [he]
      norm_num)
    (by norm_num)

/-- C3 fails as stated: on the integer-price sample 1, 2, 3 the rounded,
clamped recommendations for query conditions new and poor coincide (both
recommend 2), so the adjustment is not strictly monotone. -/
theorem estimate_condition_strict_mono_counterexample :
    ¬ ((estimate [⟨1, 2, false⟩, ⟨2, 2, false⟩, ⟨3, 2, false⟩]
          Condition.new 10).recommended_price
        > (estimate [⟨1, 2, false⟩, ⟨2, 2, false⟩, ⟨3, 2, false⟩]
            Condition.poor 10).recommended_price) := by
  have h1 : (estimate [⟨1, 2, false⟩, ⟨2, 2, false⟩, ⟨3, 2, false⟩]
      Condition.new 10).recommended_price = 2 := by
    norm_num [estimate, estimateCore, sortedPrices, List.insertionSort, List.orderedInsert,
      median, lowerHalf, upperHalf, quartile1, quartile3, estLow, estHigh, granularity,
      roundTo, clampQ, condFactor, List.getD, Int.floor_eq_iff]
  have h2 : (estimate [⟨1, 2, false⟩, ⟨2, 2, false⟩, ⟨3, 2, false⟩]
      Condition.poor 10).recommended_price = 2 := by
    norm_num [estimate, estimateCore, sortedPrices, List.insertionSort, List.orderedInsert,
      median, lowerHalf, upperHalf, quartile1, quartile3, estLow, estHigh, granularity,
      roundTo, clampQ, condFactor, List.getD, Int.floor_eq_iff]
  rw [gt_iff_lt, h1, h2]
  exact lt_irrefl 2

/-- C3 amended: for every fixed non-empty valid sample (all prices
strictly positive) and default, the recommended price for condition new is
at least — not necessarily strictly greater than — the recommended price
for condition poor; rounding to the currency granularity can collapse the
two adjusted estimates to equality. -/
theorem estimate_condition_mono (sample : List SampleEntry) (d : ℚ)
    (h : sample ≠ []) (hp : ∀ e ∈ sample, 0 < e.price) :
    (estimate sample Condition.poor d).recommended_price
      ≤ (estimate sample Condition.new d).recommended_price := by
  rw [estimate_of_ne_nil _ _ h, estimate_of_ne_nil _ _ h]
  have hsne := sortedPrices_ne_nil h
  have hspos := sortedPrices_pos hp
  have hm : (0:ℚ) ≤ median (sortedPrices sample) := (median_pos hsne hspos).le
  have hg : 0 < granularity (sample.map SampleEntry.price) := granularity_pos _
  have hff : condFactor Condition.poor ≤ condFactor Condition.new := by
    norm_num [condFactor]
  exact clampQ_mono
    (roundTo_mono hg (mul_le_mul_of_nonneg_right hff hm))
    (estLow_mono hff hsne hspos)
    (estHigh_mono hff hsne hspos)

/-- Witness for the amended C3 at the singleton sample with price 4. -/
theorem estimate_condition_mono_witness :
    (estimate [⟨4, 2, true⟩] Condition.poor 7).recommended_price
      ≤ (estimate [⟨4, 2, true⟩] Condition.new 7).recommended_price :=
  estimate_condition_mono [⟨4, 2, true⟩] 7 (List.cons_ne_nil _ _)
    (by
      intro e he
      rw [List.mem_singleton] at he
      rw [he]
      norm_num)

/-- C4: For every condition and caller-supplied default, the estimate of
the empty sample is the defined fallback — recommended price equal to the
default, low confidence, price range (default·0.8, default·1.2), sample
size zero — and, `estimate` being a total function, never an error. -/
theorem estimate_empty_fallback (c : Condition) (d : ℚ) :
    estimate [] c d =
      { recommended_price := d
        price_range := (4/5 * d, 6/5 * d)
        confidence := Confidence.low
        sample_size := 0 } := rfl

/-- C5: For every normalization that succeeds, if fewer than 4 prices
remain after parsing, relevance filtering and condition mapping then
outlier rejection is skipped and all of them are kept; otherwise an entry
of the pre-sample is kept exactly when its price lies inside the Tukey
fences Q1 − 1.5·IQR and Q3 + 1.5·IQR, so every price outside them is
dropped. -/
theorem normalize_iqr_rejection (l : List ScrapedListing) (q : QueryAttributes)
    (s : List SampleEntry) (hok : normalize l q = Except.ok s) :
    ((preNormalize l q).length < 4 → s = preNormalize l q) ∧
      (4 ≤ (preNormalize l q).length →
        ∀ e ∈ preNormalize l q,
          (e ∈ s ↔ iqrLow (sortedPrices (preNormalize l q)) ≤ e.price ∧
            e.price ≤ iqrHigh (sortedPrices (preNormalize l q)))) := by
  simp only [normalize] at hok
  split at hok
  · exact absurd hok (by simp)
  · split at hok
    · next hlen =>
      injection hok with hs
      constructor
      · intro _
        exact hs.symm
      · intro h4
        exact absurd h4 (by omega)
    · next hlen =>
      injection hok with hs
      constructor
      · intro hlt
        exact absurd hlt hlen
      · intro _ e he
        rw [← hs]
        simp only [List.mem_filter, he, true_and, Bool.and_eq_true, decide_eq_true_eq]

/-- Witness for C5 on the empty listing set with a brand-bearing query:
normalization succeeds via the skip branch. -/
theorem normalize_iqr_rejection_witness :
    ([] : List SampleEntry) = preNormalize [] ⟨some "nike", some "hoodie", none⟩ :=
  (normalize_iqr_rejection [] ⟨some "nike", some "hoodie", none⟩ [] rfl).1
    (by norm_num [preNormalize])

/-- C6: The confidence of every estimate is exactly: high iff the sample
has at least 8 entries and the squared coefficient of variation of its
prices is below 0.3² (variance < 0.09·mean²); medium iff at least 3
entries and not high; low otherwise, including the empty-sample
fallback. -/
theorem estimate_confidence_spec (sample : List SampleEntry) (c : Condition) (d : ℚ) :
    ((estimate sample c d).confidence = Confidence.high ↔
      8 ≤ sample.length ∧
        varQ (sample.map SampleEntry.price)
          < 9/100 * meanQ (sample.map SampleEntry.price) ^ 2) ∧
      ((estimate sample c d).confidence = Confidence.medium ↔
        3 ≤ sample.length ∧
          ¬(8 ≤ sample.length ∧
            varQ (sample.map SampleEntry.price)
              < 9/100 * meanQ (sample.map SampleEntry.price) ^ 2)) ∧
      ((estimate sample c d).confidence = Confidence.low ↔ sample.length < 3) := by
  cases sample with
  | nil =>
    refine ⟨?_, ?_, ?_⟩ <;> simp [estimate, fallbackEstimate]
  | cons a rest =>
    rw [estimate_of_ne_nil c d (List.cons_ne_nil a rest)]
    have hc : (estimateCore (a :: rest) c).confidence
        = confidenceOf ((a :: rest).map SampleEntry.price) := rfl
    rw [hc, confidenceOf_high_iff, confidenceOf_medium_iff, confidenceOf_low_iff,
      List.length_map]
    exact ⟨Iff.rfl, Iff.rfl, Iff.rfl⟩

/-- Witness for C6: a three-entry sample gets medium confidence. -/
theorem estimate_confidence_spec_witness :
    (estimate [⟨1, 2, true⟩, ⟨2, 2, true⟩, ⟨3, 2, true⟩]
      Condition.good 5).confidence = Confidence.medium :=
  (estimate_confidence_spec [⟨1, 2, true⟩, ⟨2, 2, true⟩, ⟨3, 2, true⟩]
      Condition.good 5).2.1.mpr
    ⟨by norm_num, by norm_num⟩

/-- C7: Normalization fails exactly when the query lacks both brand and
type; for every query with at least one of them it returns a sample
regardless of how malformed the listings are, and every entry of that
sample carries the strictly positive parsed price of some input listing —
malformed or non-positive prices are dropped, never zeroed or imputed. -/
theorem normalize_error_spec (l : List ScrapedListing) (q : QueryAttributes) :
    ((∃ err, normalize l q = Except.error err) ↔
      q.brand = none ∧ q.itemType = none) ∧
      (∀ s, normalize l q = Except.ok s →
        ∀ e ∈ s, 0 < e.price ∧ ∃ r, r ∈ l ∧ parsePrice r.price = some e.price) := by
  constructor
  · constructor
    · rintro ⟨err, herr⟩
      by_contra hq
      simp only [normalize, if_neg hq] at herr
      split at herr <;> exact absurd herr (by simp)
    · intro hq
      exact ⟨NormError.invalidQuery, by simp only [normalize, if_pos hq]⟩
  · intro s hok e he
    simp only [normalize] at hok
    split at hok
    · exact absurd hok (by simp)
    · split at hok
      · injection hok with hs
        rw [← hs] at he
        exact mem_preNormalize he
      · injection hok with hs
        rw [← hs] at he
        exact mem_preNormalize (List.mem_filter.mp he).1

/-- Witness for C7: a single well-formed listing survives normalization
with its parsed price. -/
theorem normalize_error_spec_witness :
    0 < (⟨13, 2, true⟩ : SampleEntry).price ∧
      ∃ r, r ∈ [(⟨"13", "Nike Hoodie", "good", "m"⟩ : ScrapedListing)] ∧
        parsePrice r.price = some (⟨13, 2, true⟩ : SampleEntry).price :=
  (normalize_error_spec [⟨"13", "Nike Hoodie", "good", "m"⟩]
      ⟨some "nike", some "hoodie", some "m"⟩).2
    [⟨13, 2, true⟩] rfl ⟨13, 2, true⟩ (by decide)

/-- C8: Modelling `Math.random` as an arbitrary oracle value in [0, 1),
`generateAIPrice` returns an integer between 20 and 50 inclusive, and the
returned value is completely independent of the category and condition
fields of its input. -/
theorem generateAIPrice_spec (c₁ d₁ c₂ d₂ : String) (r : ℚ)
    (h0 : 0 ≤ r) (h1 : r < 1) :
    (20 ≤ generateAIPrice c₁ d₁ r ∧ generateAIPrice c₁ d₁ r ≤ 50) ∧
      generateAIPrice c₁ d₁ r = generateAIPrice c₂ d₂ r := by
  refine ⟨⟨?_, ?_⟩, rfl⟩
  · unfold generateAIPrice jsRound
    rw [Int.le_floor]
    push_cast
    linarith
  · unfold generateAIPrice jsRound
    have hlt : ⌊(20 + r * 30 + 1/2 : ℚ)⌋ < 51 := by
      rw [Int.floor_lt]
      push_cast
      linarith
    omega

/-- Witness for C8 at the oracle value one half. -/
theorem generateAIPrice_spec_witness :
    (20 ≤ generateAIPrice "shirt" "new" (1/2)
        ∧ generateAIPrice "shirt" "new" (1/2) ≤ 50) ∧
      generateAIPrice "shirt" "new" (1/2) = generateAIPrice "hoodie" "poor" (1/2) :=
  generateAIPrice_spec "shirt" "new" "hoodie" "poor" (1/2) (by norm_num) (by norm_num)

/-- C9: For every parse function, document environment and combination of
required fields, `validateForm` with an empty image list returns false and
reports the error asking for at least one image: a listing can never
validate without an uploaded image. -/
theorem validateForm_requires_image (pf : String → Option ℚ)
    (env : String → Option FormField) (ids : List String) :
    (validateForm pf env ids []).1 = false ∧
      "Please upload at least one image" ∈ (validateForm pf env ids []).2 := by
  simp only [validateForm]
  rw [if_pos (show ([] : List String).length = 0 from rfl)]
  exact ⟨foldl_formStep_invalid pf env ids _ rfl,
    foldl_formStep_mem pf env ids _ _ (List.mem_singleton_self _)⟩

/-- C10: `validateField` returns false and hands an error to the callback
exactly when, for the trimmed field value: it is empty; or the field is a
number field whose value parses to a non-positive number; or the field is
the title input and the value is shorter than 10 characters; or the field
is the description input and the value is shorter than 20 characters.  In
every other case it returns true and the callback is not invoked. -/
theorem validateField_spec (pf : String → Option ℚ) (f : FormField) :
    ((validateField pf f).1 = false ↔
      jsTrim f.value = "" ∨
        (f.ftype = "number" ∧ ∃ x, pf (jsTrim f.value) = some x ∧ x ≤ 0) ∨
        (f.fid = "title-input" ∧ (jsTrim f.value).length < 10) ∨
        (f.fid = "description-input" ∧ (jsTrim f.value).length < 20)) ∧
      ((validateField pf f).2 ≠ "" ↔ (validateField pf f).1 = false) := by
  have hv := parsedNonpos_iff pf (jsTrim f.value)
  simp only [validateField]
  by_cases h1 : jsTrim f.value = ""
  · simp [h1]
  · by_cases h2 : f.ftype = "number" ∧ parsedNonpos pf (jsTrim f.value) = true
    · simp [h1, h2, ← hv]
    · by_cases h3 : f.fid = "title-input" ∧ (jsTrim f.value).length < 10
      · simp [h1, h2, h3, ← hv]
      · by_cases h4 : f.fid = "description-input" ∧ (jsTrim f.value).length < 20
        · simp [h1, h2, h3, h4, ← hv]
        · simp [h1, h2, h3, h4, ← hv]

/-- Witness for C10: an empty required field fails validation and invokes
the error callback. -/
theorem validateField_spec_witness :
    (validateField (fun _ => none) ⟨"", "text", "other"⟩).1 = false ∧
      (validateField (fun _ => none) ⟨"", "text", "other"⟩).2 ≠ "" := by
  have h := validateField_spec (fun _ => none) ⟨"", "text", "other"⟩
  have hfalse : (validateField (fun _ => none) (⟨"", "text", "other"⟩ : FormField)).1 = false :=
    h.1.mpr (Or.inl rfl)
  exact ⟨hfalse, h.2.mpr hfalse⟩

end VintedAutolister
